import Mathlib

/-!
Verification of the Apple Health XML → CSV exporter
(`app/apple_health_exporter.py`, class `AppleHealthExporter`).

The Python code is shallowly embedded:

* An XML element (`xml.etree.ElementTree.Element`) is a tag, an ordered
  attribute dictionary, and a list of children.  `root.iter()` is the
  document-order (preorder) traversal, yielding the root itself first.
* `tag_count` is a `defaultdict(list)`; Python dicts preserve insertion
  order, so it is embedded as an association list in insertion order.
* `pandas.DataFrame(list_of_dicts)` infers its columns as the union of
  the dict keys in first-seen order; `to_csv` writes the header then one
  line per row, with the empty string for a missing key.
* The file system is a map from path to written artifact; `os.makedirs`
  with `exist_ok=True` does not change that map, and `df.to_csv`
  overwrites the file at its path.
* `ET.parse` either produces the document tree or raises `ParseError`;
  `parse_xml` catches `ParseError` (and returns, leaving `tag_count`
  empty).  `df.to_csv` may raise an `IOError`; `save_to_csv` has no
  handler, so such an exception aborts the loop and propagates, which is
  embedded as an `Except` whose error carries the file system as written
  so far.
-/

/-- An attribute dictionary (`element.attrib`): ordered string→string pairs. -/
abbrev Attrib : Type := List (String × String)

/-- An XML element node: tag, attributes, children (in document order). -/
inductive Element : Type where
  | mk (tag : String) (attrib : Attrib) (children : List Element)

/-- The tag of an element (`element.tag`). -/
def Element.tag : Element → String
  | .mk t _ _ => t

/-- The attribute dictionary of an element (`element.attrib`). -/
def Element.attrib : Element → Attrib
  | .mk _ a _ => a

/-- The children of an element. -/
def Element.children : Element → List Element
  | .mk _ _ c => c

mutual

/-- Embeds `root.iter()`: document-order traversal of the element tree;
the element itself comes first, then its subtrees, left to right. -/
def Element.iter : Element → List Element
  | .mk t a cs => .mk t a cs :: iterList cs

/-- Document-order traversal of a forest of elements. -/
def iterList : List Element → List Element
  | [] => []
  | c :: cs => c.iter ++ iterList cs

end

/-- A parse error raised by `ET.parse` on malformed XML. -/
structure ParseError : Type where
  msg : String
deriving DecidableEq

/-- An I/O error raised while writing one tag's CSV file;
carries the tag whose write failed. -/
structure IOError : Type where
  tag : String
deriving DecidableEq

/-- Embeds `self.include_tags is None or element.tag in self.include_tags`,
the inclusion filter of `parse_xml` (line 61). -/
def includeOk (includeTags : Option (List String)) (t : String) : Bool :=
  match includeTags with
  | none => true
  | some l => l.contains t

/-- One step of `self.tag_count[element.tag].append(element.attrib)` on the
insertion-ordered `defaultdict(list)` (each key has exactly one entry):
append the attribute dict to the tag's list, creating the entry at the end
if the tag is new. -/
def addRow : List (String × List Attrib) → String → Attrib →
    List (String × List Attrib)
  | [], t, a => [(t, [a])]
  | g :: gs, t, a =>
    if g.1 = t then (g.1, g.2 ++ [a]) :: gs else g :: addRow gs t a

/-- The tag-counting loop of `parse_xml` (lines 60–63) run over an explicit
element stream, starting from an accumulated `tag_count`. -/
def countLoop (includeTags : Option (List String)) (es : List Element)
    (tc : List (String × List Attrib)) : List (String × List Attrib) :=
  es.foldl (fun tc e => if includeOk includeTags e.tag then addRow tc e.tag e.attrib else tc) tc

/-- The `tag_count` after a successful `parse_xml` on the document with the
given root: the loop over `root.iter()` from the empty defaultdict. -/
def tagCount (includeTags : Option (List String)) (root : Element) :
    List (String × List Attrib) :=
  countLoop includeTags root.iter []

/-- Embeds `parse_xml` (lines 44–63): `ET.parse` either yields the root or raises
`ParseError`; the handler at line 50 catches it and returns, leaving
`tag_count` empty.  The input models the outcome of `ET.parse`. -/
def parse_xml (includeTags : Option (List String))
    (parsed : Except ParseError Element) : List (String × List Attrib) :=
  match parsed with
  | .error _ => []
  | .ok root => tagCount includeTags root

/-- First-seen accumulation of a stream of keys onto already-collected
columns: a key already present is skipped, a new key goes to the end. -/
def fsAcc (acc : List String) (l : List String) : List String :=
  l.foldl (fun cols k => if cols.contains k then cols else cols ++ [k]) acc

/-- Column inference of `pandas.DataFrame(attribs)` (line 85): the union of
the rows' keys, each key kept at its first occurrence, scanning rows in
order and each row's keys in order. -/
def dfColumns (rows : List Attrib) : List String :=
  fsAcc [] ((rows.map (fun r => r.map Prod.fst)).flatten)

/-- One CSV line of `df.to_csv` for one row: one cell per column, the cell
being the row's value for that key, or the empty string when the row's
dict lacks the key (pandas `NaN`, written as empty). -/
def renderRow (cols : List String) (r : Attrib) : List String :=
  cols.map (fun c => ((r.find? (fun kv => kv.1 = c)).map Prod.snd).getD "")

/-- The content `df.to_csv` writes for one tag: the header line and the
body lines, as lists of cells. -/
structure Artifact : Type where
  header : List String
  rows : List (List String)
deriving DecidableEq

/-- The artifact written for one tag group: columns inferred by
`pd.DataFrame`, then each row rendered against those columns. -/
def mkArtifact (attribs : List Attrib) : Artifact :=
  ⟨dfColumns attribs, attribs.map (renderRow (dfColumns attribs))⟩

/-- The output directory as a map path → artifact, in creation order. -/
abbrev FS : Type := List (String × Artifact)

/-- Embeds `df.to_csv(csv_file_path, ...)` on the file-system map: overwrite the
content at the path, or create the file at the end if absent. -/
def writeFile (fs : FS) (p : String) (a : Artifact) : FS :=
  if fs.any (fun q => q.1 = p) then
    fs.map (fun q => if q.1 = p then (q.1, a) else q)
  else
    fs ++ [(p, a)]

/-- Read the artifact at a path of the file-system map. -/
def readFile (fs : FS) (p : String) : Option Artifact :=
  (fs.find? (fun q => q.1 = p)).map Prod.snd

/-- Embeds `create_output_directory` (lines 67–70): `os.makedirs(..., exist_ok=True)`
creates the directory if absent and is a no-op on the path→artifact map
either way; it never deletes existing files. -/
def create_output_directory (fs : FS) : FS := fs

/-- The loop of `save_to_csv` (lines 77–87) over the remaining
`tag_count.items()`, threading `total_rows` and the file system.  A write
fault (`wOk tag = false`) raises `IOError`: the loop stops, later tags are
not attempted, no total is returned, and the files written before the
fault remain on disk (carried in the error). -/
def saveLoop (wOk : String → Bool) :
    List (String × List Attrib) → Nat → FS → Except (IOError × FS) (Nat × FS)
  | [], total, fs => .ok (total, fs)
  | (t, attribs) :: rest, total, fs =>
    if wOk t then
      saveLoop wOk rest (total + attribs.length)
        (writeFile fs (t ++ ".csv") (mkArtifact attribs))
    else
      .error (⟨t⟩, fs)

/-- Embeds `save_to_csv` (lines 72–90): process the tag groups in insertion order,
writing `{tag}.csv` for each and summing the row counts; on success the
total reaches `log_summary`. -/
def save_to_csv (wOk : String → Bool) (tc : List (String × List Attrib))
    (fs : FS) : Except (IOError × FS) (Nat × FS) :=
  saveLoop wOk tc 0 fs

/-- Embeds `convert` (lines 102–113): create the output directory, parse, save.
A `ParseError` never escapes (`parse_xml` catches it); an `IOError` from a
write propagates to the caller. -/
def convert (wOk : String → Bool) (includeTags : Option (List String))
    (parsed : Except ParseError Element) (fs : FS) :
    Except (IOError × FS) (Nat × FS) :=
  save_to_csv wOk (parse_xml includeTags parsed) (create_output_directory fs)

/-- A writer with no I/O faults. -/
def allOk : String → Bool := fun _ => true

/-- The rows accumulated for tag `t` in `tag_count` (empty if absent). -/
def rowsFor (tc : List (String × List Attrib)) (t : String) : List Attrib :=
  ((tc.find? (fun g => g.1 = t)).map Prod.snd).getD []

/-- The number of body rows of the artifact written for tag `t`
(0 if no artifact exists for it). -/
def emittedRowCount (fs : FS) (t : String) : Nat :=
  (((readFile fs (t ++ ".csv")).getD ⟨[], []⟩).rows).length

/-- Total number of rows across all tag groups. -/
def totalRows (tc : List (String × List Attrib)) : Nat :=
  (tc.map (fun g => g.2.length)).sum

/-- Folding the per-tag writes of `save_to_csv` over the file system, in
tag-group order. -/
def applyWrites (tc : List (String × List Attrib)) (fs : FS) : FS :=
  tc.foldl (fun fs g => writeFile fs (g.1 ++ ".csv") (mkArtifact g.2)) fs

/-- The content the write sequence of `save_to_csv` leaves at a path:
the artifact of the last tag group writing there, if any. -/
def lastWrite : List (String × List Attrib) → String → Option Artifact
  | [], _ => none
  | g :: gs, p =>
    match lastWrite gs p with
    | some a => some a
    | none => if g.1 ++ ".csv" = p then some (mkArtifact g.2) else none

/-- Spec-side reference ("the ordered union of attribute keys …, in
first-seen order, with no duplicates"): keep each element's first
occurrence, deleting every later duplicate. -/
def specOrderedUnion : List String → List String
  | [] => []
  | k :: ks => k :: specOrderedUnion (ks.filter (fun x => x ≠ k))
termination_by l => l.length
decreasing_by
  simp only [List.length_cons]
  exact Nat.lt_succ_of_le (List.length_filter_le _ _)

/-- The qualifying elements of the document: those passing the filter,
in document order. -/
def qualifying (includeTags : Option (List String)) (root : Element) :
    List Element :=
  root.iter.filter (fun e => includeOk includeTags e.tag)

/-- The children of the spec's worked example document (§8.6). -/
def sampleChildren : List Element :=
  [.mk "Record" [("type", "A"), ("value", "1")] [],
   .mk "Record" [("type", "B")] [],
   .mk "Workout" [("dur", "5")] []]

/-- The spec's worked example document (§8.6):
`<HealthData><Record type="A" value="1"/><Record type="B"/><Workout dur="5"/></HealthData>`. -/
def sampleDoc : Element := .mk "HealthData" [] sampleChildren

/-- The file system produced by a fault-free run on `sampleDoc`. -/
def fsSample : FS :=
  [("HealthData.csv", ⟨[], [[]]⟩),
   ("Record.csv", ⟨["type", "value"], [["A", "1"], ["B", ""]]⟩),
   ("Workout.csv", ⟨["dur"], [["5"]]⟩)]

/-- A writer whose write of `A.csv` fails with an `IOError` and whose other
writes succeed. -/
def wFailA : String → Bool := fun t => !(t == "A")

/-! ### Basic lemmas about the tag-count association list -/

theorem rowsFor_nil (t : String) : rowsFor [] t = [] := rfl

theorem rowsFor_cons (g : String × List Attrib) (gs : List (String × List Attrib))
    (t : String) :
    rowsFor (g :: gs) t = if g.1 = t then g.2 else rowsFor gs t := by
  by_cases h : g.1 = t <;> simp [rowsFor, List.find?_cons, h]

theorem rowsFor_addRow (tc : List (String × List Attrib)) (t' t : String)
    (a : Attrib) :
    rowsFor (addRow tc t' a) t
      = rowsFor tc t ++ (if t' = t then [a] else []) := by
  induction tc with
  | nil =>
    by_cases h : t' = t <;> simp [addRow, rowsFor_cons, rowsFor_nil, h]
  | cons g gs ih =>
    by_cases hg : g.1 = t'
    · by_cases ht : g.1 = t
      · simp [addRow, hg, rowsFor_cons, ht, hg ▸ ht]
      · have ht' : ¬ t' = t := fun h => ht (hg.trans h)
        simp [addRow, hg, rowsFor_cons, ht, ht']
    · by_cases ht : g.1 = t
      · have ht' : ¬ t' = t := fun h => hg (ht.trans h.symm)
        have ht'' : ¬ t = t' := fun h => ht' h.symm
        simp [addRow, hg, rowsFor_cons, ht, ht', ht'']
      · simp [addRow, hg, rowsFor_cons, ht, ih]

theorem keys_addRow (tc : List (String × List Attrib)) (t : String) (a : Attrib) :
    (addRow tc t a).map Prod.fst
      = if (tc.map Prod.fst).contains t then tc.map Prod.fst
        else tc.map Prod.fst ++ [t] := by
  induction tc with
  | nil => simp [addRow]
  | cons g gs ih =>
    by_cases hg : g.1 = t
    · simp [addRow, hg, List.contains_cons]
    · have hne : (t == g.1) = false := by
        rw [beq_eq_false_iff_ne]
        exact fun h => hg h.symm
      have hb : ((g.1 :: gs.map Prod.fst).contains t)
          = ((gs.map Prod.fst).contains t) := by
        rw [List.contains_cons, hne, Bool.false_or]
      rw [show addRow (g :: gs) t a = g :: addRow gs t a by simp [addRow, hg]]
      rw [List.map_cons, List.map_cons, hb, ih]
      by_cases hc : (gs.map Prod.fst).contains t = true
      · rw [if_pos hc, if_pos hc]
      · rw [if_neg hc, if_neg hc, List.cons_append]

theorem totalRows_nil : totalRows [] = 0 := rfl

theorem totalRows_addRow (tc : List (String × List Attrib)) (t : String)
    (a : Attrib) :
    totalRows (addRow tc t a) = totalRows tc + 1 := by
  induction tc with
  | nil => simp [addRow, totalRows]
  | cons g gs ih =>
    by_cases hg : g.1 = t
    · simp [addRow, hg, totalRows, Nat.add_assoc, Nat.add_comm, Nat.add_left_comm]
    · simp [addRow, hg, totalRows] at ih ⊢
      omega

/-! ### The parse loop, described by filters over the element stream -/

theorem countLoop_nil (it : Option (List String)) (tc : List (String × List Attrib)) :
    countLoop it [] tc = tc := rfl

theorem countLoop_cons (it : Option (List String)) (e : Element)
    (es : List Element) (tc : List (String × List Attrib)) :
    countLoop it (e :: es) tc
      = countLoop it es
          (if includeOk it e.tag then addRow tc e.tag e.attrib else tc) := rfl

theorem rowsFor_countLoop (it : Option (List String)) (es : List Element)
    (tc : List (String × List Attrib)) (t : String) :
    rowsFor (countLoop it es tc) t
      = rowsFor tc t
          ++ (es.filter (fun e => includeOk it e.tag && e.tag == t)).map
               Element.attrib := by
  induction es generalizing tc with
  | nil => simp [countLoop_nil]
  | cons e es ih =>
    rw [countLoop_cons]
    by_cases hq : includeOk it e.tag = true
    · rw [if_pos hq, ih, rowsFor_addRow]
      by_cases ht : e.tag = t
      · have hcond : (includeOk it e.tag && (e.tag == t)) = true := by
          rw [hq, Bool.true_and, beq_iff_eq]
          exact ht
        rw [List.filter_cons, if_pos hcond, List.map_cons, ht]
        simp
      · have hcond : ¬ ((includeOk it e.tag && (e.tag == t)) = true) := by
          simp [hq, ht]
        rw [List.filter_cons, if_neg hcond]
        simp [ht]
    · rw [if_neg hq, ih]
      have hcond : ¬ ((includeOk it e.tag && (e.tag == t)) = true) := by
        simp [hq]
      rw [List.filter_cons, if_neg hcond]

theorem keys_countLoop (it : Option (List String)) (es : List Element)
    (tc : List (String × List Attrib)) :
    (countLoop it es tc).map Prod.fst
      = fsAcc (tc.map Prod.fst)
          ((es.filter (fun e => includeOk it e.tag)).map Element.tag) := by
  induction es generalizing tc with
  | nil => simp [countLoop_nil, fsAcc]
  | cons e es ih =>
    rw [countLoop_cons]
    by_cases hq : includeOk it e.tag = true
    · rw [if_pos hq, ih, keys_addRow]
      simp only [List.filter_cons, hq, if_pos, List.map_cons]
      rw [show fsAcc (tc.map Prod.fst) (e.tag :: _) =
            fsAcc (if (tc.map Prod.fst).contains e.tag then tc.map Prod.fst
                   else tc.map Prod.fst ++ [e.tag]) _ from rfl]
    · rw [if_neg hq, ih]
      simp only [Bool.not_eq_true] at hq
      simp [List.filter_cons, hq]

theorem totalRows_countLoop (it : Option (List String)) (es : List Element)
    (tc : List (String × List Attrib)) :
    totalRows (countLoop it es tc)
      = totalRows tc + (es.filter (fun e => includeOk it e.tag)).length := by
  induction es generalizing tc with
  | nil => simp [countLoop_nil]
  | cons e es ih =>
    rw [countLoop_cons]
    by_cases hq : includeOk it e.tag = true
    · rw [if_pos hq, ih, totalRows_addRow]
      simp [List.filter_cons, hq]
      omega
    · rw [if_neg hq, ih]
      simp only [Bool.not_eq_true] at hq
      simp [List.filter_cons, hq]

/-! ### First-seen order and the spec's ordered union -/

theorem fsAcc_nil (acc : List String) : fsAcc acc [] = acc := rfl

theorem fsAcc_cons (acc : List String) (k : String) (l : List String) :
    fsAcc acc (k :: l)
      = fsAcc (if acc.contains k then acc else acc ++ [k]) l := rfl

theorem mem_specOrderedUnion (l : List String) (k : String) :
    k ∈ specOrderedUnion l ↔ k ∈ l := by
  induction l using specOrderedUnion.induct with
  | case1 => simp [specOrderedUnion]
  | case2 x ks ih =>
    rw [specOrderedUnion]
    by_cases hk : k = x
    · simp [hk]
    · simp only [List.mem_cons, hk, false_or, ih, List.mem_filter,
        decide_eq_true_eq]
      constructor
      · exact fun h => h.1
      · exact fun h => ⟨h, by simpa using hk⟩

theorem nodup_specOrderedUnion (l : List String) :
    (specOrderedUnion l).Nodup := by
  induction l using specOrderedUnion.induct with
  | case1 => simp [specOrderedUnion]
  | case2 x ks ih =>
    rw [specOrderedUnion]
    refine List.nodup_cons.mpr ⟨fun hx => ?_, ih⟩
    rw [mem_specOrderedUnion] at hx
    simp at hx

theorem fsAcc_eq_append_specOrderedUnion (l : List String) (acc : List String) :
    fsAcc acc l
      = acc ++ specOrderedUnion (l.filter (fun k => !acc.contains k)) := by
  induction l generalizing acc with
  | nil => simp [fsAcc_nil, specOrderedUnion]
  | cons x xs ih =>
    rw [fsAcc_cons]
    by_cases hx : acc.contains x = true
    · rw [if_pos hx, ih]
      have hcn : ¬ ((!acc.contains x) = true) := by rw [hx]; simp
      rw [List.filter_cons, if_neg hcn]
    · rw [if_neg hx, ih]
      have hfun : (fun k => !(acc ++ [x]).contains k)
          = (fun k => decide ¬ k = x && !acc.contains k) := by
        funext k
        simp only [List.contains, List.elem_eq_mem, List.mem_append,
          List.mem_singleton]
        by_cases hk : k = x <;> by_cases hka : k ∈ acc <;> simp [hk, hka]
      rw [hfun, ← List.filter_filter]
      have hcp : ((!acc.contains x) = true) := by
        rw [Bool.eq_false_iff.mpr hx]
        rfl
      have hher : ((x :: xs).filter (fun k => !acc.contains k))
          = x :: xs.filter (fun k => !acc.contains k) := by
        rw [List.filter_cons, if_pos hcp]
      rw [hher, specOrderedUnion, List.append_assoc, List.singleton_append]

theorem dfColumns_eq_specOrderedUnion (rows : List Attrib) :
    dfColumns rows
      = specOrderedUnion ((rows.map (fun r => r.map Prod.fst)).flatten) := by
  rw [dfColumns, fsAcc_eq_append_specOrderedUnion, List.nil_append]
  congr 1
  rw [show (fun k : String => !List.contains [] k) = (fun _ : String => true) from rfl]
  exact List.filter_true _

theorem fsAcc_nil_left (l : List String) : fsAcc [] l = specOrderedUnion l := by
  rw [fsAcc_eq_append_specOrderedUnion, List.nil_append]
  congr 1
  rw [show (fun k : String => !List.contains [] k) = (fun _ : String => true) from rfl]
  exact List.filter_true _

theorem keys_tagCount (it : Option (List String)) (root : Element) :
    (tagCount it root).map Prod.fst
      = specOrderedUnion ((qualifying it root).map Element.tag) := by
  rw [tagCount, keys_countLoop, qualifying]
  exact fsAcc_nil_left _

theorem nodup_keys_tagCount (it : Option (List String)) (root : Element) :
    ((tagCount it root).map Prod.fst).Nodup := by
  rw [keys_tagCount]
  exact nodup_specOrderedUnion _

theorem rowsFor_tagCount (it : Option (List String)) (root : Element)
    (t : String) :
    rowsFor (tagCount it root) t
      = (root.iter.filter (fun e => includeOk it e.tag && e.tag == t)).map
          Element.attrib := by
  rw [tagCount, rowsFor_countLoop, rowsFor_nil, List.nil_append]

theorem rowsFor_tagCount_of_include (it : Option (List String)) (root : Element)
    (t : String) (h : includeOk it t = true) :
    rowsFor (tagCount it root) t
      = (root.iter.filter (fun e => e.tag == t)).map Element.attrib := by
  rw [rowsFor_tagCount]
  congr 1
  apply List.filter_congr
  intro e _
  by_cases ht : (e.tag == t) = true
  · have : e.tag = t := by rwa [beq_iff_eq] at ht
    rw [ht, this, h, Bool.true_and]
  · rw [Bool.eq_false_iff.mpr ht, Bool.and_false]

/-! ### The file-system map -/

theorem str_append_cancel (a b c : String) (h : a ++ c = b ++ c) : a = b := by
  apply String.ext
  have hd := congrArg String.data h
  rw [String.data_append, String.data_append] at hd
  exact List.append_cancel_right hd

theorem writeFile_of_not_mem (fs : FS) (p : String) (a : Artifact)
    (h : p ∉ fs.map Prod.fst) : writeFile fs p a = fs ++ [(p, a)] := by
  rw [writeFile, if_neg]
  intro hany
  obtain ⟨g, hg, hgp⟩ := List.any_eq_true.mp hany
  exact h (List.mem_map.mpr ⟨g, hg, of_decide_eq_true hgp⟩)

theorem readFile_writeFile (fs : FS) (p : String) (a : Artifact) (q : String) :
    readFile (writeFile fs p a) q
      = if p = q then some a else readFile fs q := by
  by_cases hany : fs.any (fun g => g.1 = p) = true
  · rw [writeFile, if_pos hany, readFile, List.find?_map]
    have hpred : ((fun g : String × Artifact => decide (g.1 = q))
          ∘ (fun g : String × Artifact => if g.1 = p then (g.1, a) else g))
        = (fun g : String × Artifact => decide (g.1 = q)) := by
      funext g
      by_cases hg : g.1 = p <;> simp [hg]
    rw [hpred]
    by_cases hq : p = q
    · subst hq
      obtain ⟨g0, hg0m, hg0⟩ := List.any_eq_true.mp hany
      have hsome : (fs.find? (fun g => g.1 = p)).isSome := by
        rw [List.find?_isSome]
        exact ⟨g0, hg0m, hg0⟩
      obtain ⟨g1, hg1⟩ := Option.isSome_iff_exists.mp hsome
      have hg1p : g1.1 = p := by
        have hpr := List.find?_some hg1
        simpa using hpr
      rw [hg1, if_pos rfl]
      simp [hg1p]
    · rw [if_neg hq, readFile]
      cases hf : fs.find? (fun g => g.1 = q) with
      | none => simp
      | some g1 =>
        have hg1q : g1.1 = q := by
          have hpr := List.find?_some hf
          simpa using hpr
        have : ¬ g1.1 = p := fun hc => hq ((hc.symm.trans hg1q))
        simp [this]
  · rw [writeFile, if_neg hany, readFile, List.find?_append]
    by_cases hq : p = q
    · subst hq
      have hnone : fs.find? (fun g => g.1 = p) = none := by
        rw [List.find?_eq_none]
        intro g hg
        intro hgp
        exact hany (List.any_eq_true.mpr ⟨g, hg, hgp⟩)
      rw [hnone]
      simp [List.find?_cons, readFile]
    · have hnone : List.find? (fun g : String × Artifact => g.1 = q) [(p, a)]
          = none := by
        rw [List.find?_eq_none]
        intro g hg
        rw [List.mem_singleton] at hg
        subst hg
        simpa using hq
      rw [hnone, readFile]
      cases fs.find? (fun g : String × Artifact => g.1 = q) <;> simp [hq]

/-! ### The write loop of `save_to_csv` -/

theorem saveLoop_nil (w : String → Bool) (total : Nat) (fs : FS) :
    saveLoop w [] total fs = .ok (total, fs) := rfl

theorem saveLoop_cons_ok (w : String → Bool) (t : String)
    (attribs : List Attrib) (rest : List (String × List Attrib))
    (total : Nat) (fs : FS) (h : w t = true) :
    saveLoop w ((t, attribs) :: rest) total fs
      = saveLoop w rest (total + attribs.length)
          (writeFile fs (t ++ ".csv") (mkArtifact attribs)) := by
  rw [saveLoop, if_pos h]

theorem saveLoop_cons_err (w : String → Bool) (t : String)
    (attribs : List Attrib) (rest : List (String × List Attrib))
    (total : Nat) (fs : FS) (h : w t = false) :
    saveLoop w ((t, attribs) :: rest) total fs = .error (⟨t⟩, fs) := by
  rw [saveLoop, if_neg]
  rw [h]
  simp

theorem applyWrites_nil (fs : FS) : applyWrites [] fs = fs := rfl

theorem applyWrites_cons (g : String × List Attrib)
    (gs : List (String × List Attrib)) (fs : FS) :
    applyWrites (g :: gs) fs
      = applyWrites gs (writeFile fs (g.1 ++ ".csv") (mkArtifact g.2)) := rfl

theorem saveLoop_ok_of_all (w : String → Bool) (tc : List (String × List Attrib))
    (hall : ∀ g ∈ tc, w g.1 = true) (total : Nat) (fs : FS) :
    saveLoop w tc total fs = .ok (total + totalRows tc, applyWrites tc fs) := by
  induction tc generalizing total fs with
  | nil => rw [saveLoop_nil, applyWrites_nil, totalRows_nil, Nat.add_zero]
  | cons g gs ih =>
    obtain ⟨t, attribs⟩ := g
    rw [saveLoop_cons_ok _ _ _ _ _ _ (hall _ (List.mem_cons_self _ _)),
        ih (fun g' hg' => hall g' (List.mem_cons_of_mem _ hg')),
        applyWrites_cons]
    have htot : totalRows ((t, attribs) :: gs) = attribs.length + totalRows gs := by
      simp only [totalRows, List.map_cons, List.sum_cons]
    rw [htot, ← Nat.add_assoc]

theorem saveLoop_ok_inv (w : String → Bool) (tc : List (String × List Attrib))
    (total : Nat) (fs : FS) (n : Nat) (fs' : FS)
    (h : saveLoop w tc total fs = .ok (n, fs')) :
    (∀ g ∈ tc, w g.1 = true) ∧ n = total + totalRows tc
      ∧ fs' = applyWrites tc fs := by
  induction tc generalizing total fs with
  | nil =>
    rw [saveLoop_nil] at h
    injection h with h
    injection h with h1 h2
    exact ⟨by simp, by rw [totalRows_nil, ← h1, Nat.add_zero], by
      rw [applyWrites_nil, h2]⟩
  | cons g gs ih =>
    obtain ⟨t, attribs⟩ := g
    by_cases hw : w t = true
    · rw [saveLoop_cons_ok _ _ _ _ _ _ hw] at h
      obtain ⟨h1, h2, h3⟩ := ih _ _ h
      have htot : totalRows ((t, attribs) :: gs)
          = attribs.length + totalRows gs := by
        simp only [totalRows, List.map_cons, List.sum_cons]
      refine ⟨?_, ?_, ?_⟩
      · intro g' hg'
        rcases List.mem_cons.mp hg' with hg' | hg'
        · rw [hg']; exact hw
        · exact h1 g' hg'
      · rw [h2, htot]
        omega
      · rw [h3, applyWrites_cons]
    · rw [saveLoop_cons_err _ _ _ _ _ _ (Bool.eq_false_iff.mpr hw)] at h
      exact absurd h (by simp)

/-! ### What the write loop leaves on disk -/

theorem lastWrite_nil (q : String) : lastWrite [] q = none := rfl

theorem lastWrite_isSome_mem (tc : List (String × List Attrib)) (q : String)
    (h : (lastWrite tc q).isSome = true) :
    ∃ g ∈ tc, g.1 ++ ".csv" = q := by
  induction tc with
  | nil => exact absurd h (by rw [lastWrite_nil]; simp)
  | cons g gs ih =>
    rw [lastWrite] at h
    cases hg : lastWrite gs q with
    | some b =>
      obtain ⟨g', hg', hp⟩ := ih (by rw [hg]; rfl)
      exact ⟨g', List.mem_cons_of_mem _ hg', hp⟩
    | none =>
      rw [hg] at h
      by_cases hp : g.1 ++ ".csv" = q
      · exact ⟨g, List.mem_cons_self _ _, hp⟩
      · rw [if_neg hp] at h
        exact absurd h (by simp)

theorem readFile_applyWrites (tc : List (String × List Attrib)) (fs : FS)
    (q : String) :
    readFile (applyWrites tc fs) q = (lastWrite tc q).or (readFile fs q) := by
  induction tc generalizing fs with
  | nil => rw [applyWrites_nil, lastWrite_nil, Option.none_or]
  | cons g gs ih =>
    rw [applyWrites_cons, ih, readFile_writeFile, lastWrite]
    cases hg : lastWrite gs q with
    | some b => simp
    | none =>
      by_cases hp : g.1 ++ ".csv" = q
      · simp [hp]
      · simp [hp]

theorem lastWrite_of_nodup (tc : List (String × List Attrib)) (t : String)
    (h : (tc.map Prod.fst).Nodup) :
    lastWrite tc (t ++ ".csv")
      = (tc.find? (fun g => g.1 = t)).map (fun g => mkArtifact g.2) := by
  induction tc with
  | nil => rfl
  | cons g gs ih =>
    rw [List.map_cons, List.nodup_cons] at h
    obtain ⟨hg, hnd⟩ := h
    rw [lastWrite, ih hnd]
    by_cases hgt : g.1 = t
    · have hnone : gs.find? (fun g' => g'.1 = t) = none := by
        rw [List.find?_eq_none]
        intro g' hg' hp
        have hpt : g'.1 = t := by simpa using hp
        exact hg (List.mem_map.mpr ⟨g', hg', hpt.trans hgt.symm⟩)
      rw [hnone, List.find?_cons_of_pos _ (by simpa using hgt)]
      simp [hgt]
    · have hne : ¬ (g.1 ++ ".csv" = t ++ ".csv") :=
        fun hc => hgt (str_append_cancel _ _ _ hc)
      rw [List.find?_cons_of_neg _ (by simpa using hgt)]
      cases gs.find? (fun g' => g'.1 = t) with
      | none => simp [hne]
      | some g' => simp

theorem applyWrites_of_disjoint (tc : List (String × List Attrib)) (fs : FS)
    (hnd : (tc.map (fun g => g.1 ++ ".csv")).Nodup)
    (hdisj : ∀ g ∈ tc, (g.1 ++ ".csv") ∉ fs.map Prod.fst) :
    applyWrites tc fs
      = fs ++ tc.map (fun g => (g.1 ++ ".csv", mkArtifact g.2)) := by
  induction tc generalizing fs with
  | nil => rw [applyWrites_nil, List.map_nil, List.append_nil]
  | cons g gs ih =>
    rw [List.map_cons, List.nodup_cons] at hnd
    obtain ⟨hghd, hnd⟩ := hnd
    rw [applyWrites_cons,
        writeFile_of_not_mem _ _ _ (hdisj g (List.mem_cons_self _ _)),
        ih _ hnd]
    · rw [List.map_cons, List.append_assoc, List.singleton_append]
    · intro g' hg'
      rw [List.map_append]
      intro hmem
      rcases List.mem_append.mp hmem with hmem | hmem
      · exact hdisj g' (List.mem_cons_of_mem _ hg') hmem
      · simp only [List.map_cons, List.map_nil, List.mem_singleton] at hmem
        exact hghd (hmem ▸ List.mem_map.mpr ⟨g', hg', rfl⟩)

theorem emittedRowCount_applyWrites (tc : List (String × List Attrib))
    (t : String) (h : (tc.map Prod.fst).Nodup) :
    emittedRowCount (applyWrites tc []) t = (rowsFor tc t).length := by
  rw [emittedRowCount, readFile_applyWrites, lastWrite_of_nodup _ _ h]
  cases hf : tc.find? (fun g => g.1 = t) with
  | none => simp [rowsFor, hf, readFile]
  | some g => simp [rowsFor, hf, mkArtifact]

/-! ### Traversal equations -/

theorem iter_mk (t : String) (a : Attrib) (cs : List Element) :
    Element.iter (.mk t a cs) = .mk t a cs :: iterList cs := by
  rw [Element.iter]

theorem iterList_nil : iterList [] = [] := rfl

theorem iterList_cons (c : Element) (cs : List Element) :
    iterList (c :: cs) = c.iter ++ iterList cs := by
  rw [iterList]

-- A quick sanity example (spec §8.6-shaped input, but the root also counts).
example :
    convert allOk none
      (.ok (.mk "HealthData" []
        [.mk "Record" [("type", "A"), ("value", "1")] [],
         .mk "Record" [("type", "B")] [],
         .mk "Workout" [("dur", "5")] []])) [] =
    .ok (4,
      [("HealthData.csv", ⟨[], [[]]⟩),
       ("Record.csv", ⟨["type", "value"], [["A", "1"], ["B", ""]]⟩),
       ("Workout.csv", ⟨["dur"], [["5"]]⟩)]) := by
  rfl

theorem find?_of_keys_nodup (r : Attrib) (c : String) (v : String)
    (hnd : (r.map Prod.fst).Nodup) (hm : (c, v) ∈ r) :
    r.find? (fun kv => kv.1 = c) = some (c, v) := by
  induction r with
  | nil => exact absurd hm (by simp)
  | cons kv r' ih =>
    rw [List.map_cons, List.nodup_cons] at hnd
    obtain ⟨hhd, hnd⟩ := hnd
    rcases List.mem_cons.mp hm with hm | hm
    · rw [← hm]
      exact List.find?_cons_of_pos _ (by simp)
    · have hkc : ¬ kv.1 = c := by
        intro hc
        exact hhd (hc ▸ List.mem_map.mpr ⟨(c, v), hm, rfl⟩)
      rw [List.find?_cons_of_neg _ (by simpa using hkc)]
      exact ih hnd hm

/-! ## The claims -/

/-- C1: for every well-formed XML input and every tag `t` passing the
inclusion filter (`include_tags`, or all tags when it is `None`), the run
succeeds and the number of rows emitted in `t`'s artifact equals the number
of elements with tag `t` in the document. -/
theorem spec_C1 (it : Option (List String)) (root : Element) (t : String)
    (h : includeOk it t = true) :
    ∃ n fs, convert allOk it (.ok root) [] = Except.ok (n, fs)
      ∧ emittedRowCount fs t
          = (root.iter.filter (fun e => e.tag == t)).length := by
  refine ⟨totalRows (tagCount it root), applyWrites (tagCount it root) [],
    ?_, ?_⟩
  · rw [convert, create_output_directory, parse_xml, save_to_csv,
        saveLoop_ok_of_all allOk _ (fun g _ => rfl), Nat.zero_add]
  · rw [emittedRowCount_applyWrites _ _ (nodup_keys_tagCount it root),
        rowsFor_tagCount_of_include _ _ _ h, List.length_map]

/-- Witness for C1: concrete instance on the spec's worked example with
no inclusion filter and tag `Record`. -/
theorem spec_C1_witness :
    includeOk none "Record" = true
    ∧ ∃ n fs, convert allOk none (.ok sampleDoc) [] = Except.ok (n, fs)
        ∧ emittedRowCount fs "Record"
            = (sampleDoc.iter.filter (fun e => e.tag == "Record")).length :=
  ⟨rfl, spec_C1 none sampleDoc "Record" rfl⟩

/-- C2 counterexample: on malformed XML (`ET.parse` raising `ParseError`),
`convert` does NOT surface the error — `parse_xml` catches it and the run
returns normally with total 0 and no artifacts. -/
theorem spec_C2_counterexample :
    convert allOk none (.error ⟨"no element found: line 1, column 0"⟩) []
      = Except.ok (0, ([] : FS)) := rfl

/-- C2 amended: for every malformed XML input, the `ParseError` is caught
and logged inside `parse_xml`; `convert` completes normally, creates zero
artifacts (the output directory is left as it was), and reports
`total_rows = 0` — no error reaches the caller. -/
theorem spec_C2_amended (pe : ParseError) (w : String → Bool)
    (it : Option (List String)) (fs : FS) :
    convert w it (.error pe) fs = Except.ok (0, fs) := rfl

/-- C3 counterexample: with a document producing tag groups `R`, `A`, `B`
in that order and a writer failing exactly on `A`, the run does not
complete with a summary: it stops at `A` with the `IOError`, `B.csv` is
never attempted, and only `R.csv` is on disk. -/
theorem spec_C3_counterexample :
    convert wFailA none
        (.ok (.mk "R" [] [.mk "A" [("x", "1")] [], .mk "B" [("y", "2")] []])) []
      = Except.error (⟨"A"⟩, [("R.csv", ⟨[], [[]]⟩)]) := rfl

/-- C3 amended: an I/O fault while writing one tag's artifact raises and
aborts the loop of `save_to_csv`: the remaining tag groups are not
attempted, no summary is produced, and the files written before the
fault remain on disk. -/
theorem spec_C3_amended (w : String → Bool) (t : String) (a : List Attrib)
    (rest : List (String × List Attrib)) (total : Nat) (fs : FS)
    (h : w t = false) :
    saveLoop w ((t, a) :: rest) total fs = Except.error (⟨t⟩, fs) :=
  saveLoop_cons_err w t a rest total fs h

/-- Witness for the amended C3: concrete instance where the write of
`A.csv` fails after `R.csv` was written. -/
theorem spec_C3_amended_witness :
    wFailA "A" = false
    ∧ saveLoop wFailA [("A", [[("x", "1")]]), ("B", [[("y", "2")]])] 0
        [("R.csv", ⟨[], [[]]⟩)]
      = Except.error (⟨"A"⟩, [("R.csv", ⟨[], [[]]⟩)]) :=
  ⟨rfl, spec_C3_amended wFailA "A" [[("x", "1")]] [("B", [[("y", "2")]])] 0
    [("R.csv", ⟨[], [[]]⟩)] rfl⟩

/-- C4 counterexample: on `<HealthData/>` with no inclusion filter the
export does not produce an empty directory with `total_rows = 0`. -/
theorem spec_C4_counterexample :
    convert allOk none (.ok (.mk "HealthData" [] [])) []
      ≠ Except.ok (0, ([] : FS)) := by
  intro h
  have h2 := Except.ok.inj h
  simp at h2

/-- C4 amended: on `<HealthData/>` with no inclusion filter, the root
element itself is iterated, so the export writes one artifact
`HealthData.csv` holding a single empty row and reports `total_rows = 1`. -/
theorem spec_C4_amended :
    convert allOk none (.ok (.mk "HealthData" [] [])) []
      = Except.ok (1, [("HealthData.csv", ⟨[], [[]]⟩)]) := rfl

/-- C5: for every tag `t` passing the filter, the header of `t`'s artifact
is exactly the union of the attribute keys of the elements with tag `t`,
ordered by first occurrence in document order, with no duplicates. -/
theorem spec_C5 (it : Option (List String)) (root : Element) (t : String)
    (h : includeOk it t = true) :
    rowsFor (tagCount it root) t
        = (root.iter.filter (fun e => e.tag == t)).map Element.attrib
    ∧ dfColumns (rowsFor (tagCount it root) t)
        = specOrderedUnion
            (((rowsFor (tagCount it root) t).map
                (fun r => r.map Prod.fst)).flatten)
    ∧ (dfColumns (rowsFor (tagCount it root) t)).Nodup
    ∧ ∀ k, k ∈ dfColumns (rowsFor (tagCount it root) t) ↔
        ∃ e ∈ root.iter, e.tag = t ∧ k ∈ e.attrib.map Prod.fst := by
  refine ⟨rowsFor_tagCount_of_include _ _ _ h,
    dfColumns_eq_specOrderedUnion _, ?_, ?_⟩
  · rw [dfColumns_eq_specOrderedUnion]
    exact nodup_specOrderedUnion _
  · intro k
    rw [dfColumns_eq_specOrderedUnion, mem_specOrderedUnion,
        rowsFor_tagCount_of_include _ _ _ h]
    rw [List.map_map]
    constructor
    · intro hk
      rw [List.mem_flatten] at hk
      obtain ⟨l, hl, hkl⟩ := hk
      rw [List.mem_map] at hl
      obtain ⟨e, hef, hfe⟩ := hl
      rw [List.mem_filter] at hef
      refine ⟨e, hef.1, by simpa using hef.2, ?_⟩
      rw [← hfe] at hkl
      simpa using hkl
    · rintro ⟨e, he, het, hk⟩
      rw [List.mem_flatten]
      refine ⟨e.attrib.map Prod.fst, ?_, hk⟩
      rw [List.mem_map]
      exact ⟨e, List.mem_filter.mpr ⟨he, by simpa using het⟩, rfl⟩

/-- Witness for C5: concrete instance on the spec's worked example with
no inclusion filter and tag `Record`. -/
theorem spec_C5_witness :
    includeOk none "Record" = true
    ∧ (rowsFor (tagCount none sampleDoc) "Record"
          = (sampleDoc.iter.filter (fun e => e.tag == "Record")).map
              Element.attrib
       ∧ dfColumns (rowsFor (tagCount none sampleDoc) "Record")
          = specOrderedUnion
              (((rowsFor (tagCount none sampleDoc) "Record").map
                  (fun r => r.map Prod.fst)).flatten)
       ∧ (dfColumns (rowsFor (tagCount none sampleDoc) "Record")).Nodup
       ∧ ∀ k, k ∈ dfColumns (rowsFor (tagCount none sampleDoc) "Record") ↔
          ∃ e ∈ sampleDoc.iter, e.tag = "Record"
            ∧ k ∈ e.attrib.map Prod.fst) :=
  ⟨rfl, spec_C5 none sampleDoc "Record" rfl⟩

/-- C6: every rendered row has exactly one cell per header column; a column
missing from the row's attribute dict yields the empty cell (never an
error, never omitted), and a present key's value sits at that column's
position. -/
theorem spec_C6 (cols : List String) (r : Attrib) :
    (renderRow cols r).length = cols.length
    ∧ ∀ i c, cols.get? i = some c →
        ((c ∉ r.map Prod.fst → (renderRow cols r).get? i = some "")
         ∧ ∀ v, (r.map Prod.fst).Nodup → (c, v) ∈ r →
             (renderRow cols r).get? i = some v) := by
  refine ⟨List.length_map _ _, ?_⟩
  intro i c hc
  have hr : (renderRow cols r).get? i
      = some (((r.find? (fun kv => kv.1 = c)).map Prod.snd).getD "") := by
    rw [renderRow, List.get?_map, hc, Option.map_some']
  constructor
  · intro hmem
    rw [hr]
    have hnone : r.find? (fun kv => kv.1 = c) = none := by
      rw [List.find?_eq_none]
      intro kv hkv hp
      exact hmem (List.mem_map.mpr ⟨kv, hkv, by simpa using hp⟩)
    rw [hnone]
    rfl
  · intro v hnd hmem
    rw [hr, find?_of_keys_nodup r c v hnd hmem]
    rfl

/-- Witness for C6: a concrete header `[type, value]` and a row holding
only `type`; the missing `value` cell renders empty and the present
`type` cell keeps its value at its column position. -/
theorem spec_C6_witness :
    (renderRow ["type", "value"] [("type", "A")]).length = 2
    ∧ ((["type", "value"] : List String).get? 1 = some "value")
    ∧ ("value" ∉ ([("type", "A")] : Attrib).map Prod.fst)
    ∧ (renderRow ["type", "value"] [("type", "A")]).get? 1 = some ""
    ∧ ((["type", "value"] : List String).get? 0 = some "type")
    ∧ (([("type", "A")] : Attrib).map Prod.fst).Nodup
    ∧ (("type", "A") ∈ ([("type", "A")] : Attrib))
    ∧ (renderRow ["type", "value"] [("type", "A")]).get? 0 = some "A" := by
  refine ⟨(spec_C6 ["type", "value"] [("type", "A")]).1, by decide, by decide,
    ?_, by decide, by decide, by decide, ?_⟩
  · exact ((spec_C6 ["type", "value"] [("type", "A")]).2 1 "value"
      (by decide)).1 (by decide)
  · exact ((spec_C6 ["type", "value"] [("type", "A")]).2 0 "type"
      (by decide)).2 "A" (by decide) (by decide)

/-- C7: re-running `convert` with the identical parsed input, inclusion
filter and output directory succeeds with the same total and leaves every
path of the output directory with content identical to the first run
(each artifact is overwritten with the same bytes). -/
theorem spec_C7 (w : String → Bool) (it : Option (List String))
    (parsed : Except ParseError Element) (fs : FS) (n : Nat) (fs1 : FS)
    (h : convert w it parsed fs = Except.ok (n, fs1)) :
    ∃ fs2, convert w it parsed fs1 = Except.ok (n, fs2)
      ∧ ∀ p, readFile fs2 p = readFile fs1 p := by
  rw [convert, create_output_directory, save_to_csv] at h
  obtain ⟨hall, hn, hfs⟩ := saveLoop_ok_inv _ _ _ _ _ _ h
  refine ⟨applyWrites (parse_xml it parsed) fs1, ?_, ?_⟩
  · rw [convert, create_output_directory, save_to_csv,
        saveLoop_ok_of_all _ _ hall, Nat.zero_add] at *
    rw [hn]
  · intro p
    rw [hfs]
    simp only [readFile_applyWrites]
    cases lastWrite (parse_xml it parsed) p with
    | some a => simp
    | none => simp

/-- Witness for C7: re-running on the worked example from its own output
reproduces the same artifacts. -/
theorem spec_C7_witness :
    convert allOk none (.ok sampleDoc) [] = Except.ok (4, fsSample)
    ∧ ∃ fs2, convert allOk none (.ok sampleDoc) fsSample
          = Except.ok (4, fs2)
        ∧ ∀ p, readFile fs2 p = readFile fsSample p :=
  ⟨rfl, spec_C7 allOk none (.ok sampleDoc) [] 4 fsSample rfl⟩

/-- C8: the tag groups are processed and reported in tag-discovery order —
the keys of `tag_count` are the qualifying tags deduplicated in
first-seen document order, and a fault-free run writes exactly one
artifact per group in that same order. -/
theorem spec_C8 (it : Option (List String)) (root : Element) :
    (tagCount it root).map Prod.fst
        = specOrderedUnion ((qualifying it root).map Element.tag)
    ∧ convert allOk it (.ok root) []
        = Except.ok (totalRows (tagCount it root),
            (tagCount it root).map (fun g => (g.1 ++ ".csv", mkArtifact g.2))) := by
  refine ⟨keys_tagCount it root, ?_⟩
  rw [convert, create_output_directory, parse_xml, save_to_csv,
      saveLoop_ok_of_all allOk _ (fun g _ => rfl), Nat.zero_add]
  have hinj : Function.Injective (fun s : String => s ++ ".csv") :=
    fun a b hab => str_append_cancel a b ".csv" hab
  have hnd : ((tagCount it root).map (fun g => g.1 ++ ".csv")).Nodup := by
    rw [show (fun g : String × List Attrib => g.1 ++ ".csv")
          = (fun s : String => s ++ ".csv") ∘ Prod.fst from rfl,
        ← List.map_map]
    exact List.Nodup.map hinj (nodup_keys_tagCount it root)
  rw [applyWrites_of_disjoint _ _ hnd (fun g _ => by simp), List.nil_append]

/-- C10: with no inclusion filter every element node — the root included,
at every depth — contributes exactly one row to its tag's group: the total
row count equals the number of nodes of the tree, and a `HealthData` root
whose descendants all carry other tags yields a `HealthData` group with
exactly the root's one row. -/
theorem spec_C10 (a : Attrib) (children : List Element)
    (h : ∀ e ∈ iterList children, e.tag ≠ "HealthData") :
    totalRows (tagCount none (.mk "HealthData" a children))
        = (Element.iter (.mk "HealthData" a children)).length
    ∧ rowsFor (tagCount none (.mk "HealthData" a children)) "HealthData"
        = [a] := by
  constructor
  · rw [tagCount, totalRows_countLoop, totalRows_nil, Nat.zero_add]
    have hfil : (Element.iter (.mk "HealthData" a children)).filter
          (fun e => includeOk none e.tag)
        = Element.iter (.mk "HealthData" a children) := by
      rw [show (fun e : Element => includeOk none e.tag)
            = (fun _ : Element => true) from rfl]
      exact List.filter_true _
    rw [hfil]
  · rw [rowsFor_tagCount_of_include none _ _ rfl, iter_mk, List.filter_cons]
    have hhd : ((Element.mk "HealthData" a children).tag == "HealthData")
        = true := by
      rw [beq_iff_eq]
      rfl
    rw [if_pos hhd]
    have htl : (iterList children).filter
          (fun e => e.tag == "HealthData") = [] := by
      rw [List.filter_eq_nil_iff]
      intro e he
      simpa using h e he
    rw [htl, List.map_cons, List.map_nil]
    rfl

/-- Witness for C10: the worked example's children, none of which is
tagged `HealthData`. -/
theorem spec_C10_witness :
    (∀ e ∈ iterList sampleChildren, e.tag ≠ "HealthData")
    ∧ (totalRows (tagCount none (.mk "HealthData" [] sampleChildren))
          = (Element.iter (.mk "HealthData" [] sampleChildren)).length
       ∧ rowsFor (tagCount none (.mk "HealthData" [] sampleChildren))
            "HealthData" = [[]]) :=
  ⟨by decide, spec_C10 [] sampleChildren (by decide)⟩
